import Mathlib

/-!
Shallow embedding of the powerplant unit-commitment solver
(`classes.py`, `api.py`) over exact rational arithmetic.

Python floats are modelled as `ℚ`; a raised exception (division by
zero, out-of-range list index) is modelled by `Option`, with `none`
standing for the crash.
-/

/-- Mirrors `PowerplantEnum` in `classes.py`. -/
inductive PowerplantEnum where
  | gasfired
  | turbojet
  | windturbine
deriving DecidableEq

/-- Mirrors the four entries of the `fuels` dictionary (`FuelEnum` keys). -/
structure Fuels where
  gas : ℚ
  kerosine : ℚ
  co2 : ℚ
  wind : ℚ
deriving DecidableEq

/-- Mirrors the pydantic model `Powerplant`. -/
structure Powerplant where
  name : String
  type : PowerplantEnum
  efficiency : ℚ
  pmin : ℚ
  pmax : ℚ
deriving DecidableEq

/-- Mirrors the pydantic model `Payload`. -/
structure Payload where
  load : ℚ
  fuels : Fuels
  powerplants : List Powerplant
deriving DecidableEq

/-- The mutable solver state of `UCproblem`: `self.solution` and
`self.current_load`. -/
structure SolverState where
  solution : List ℚ
  current_load : ℚ
deriving DecidableEq

/-- `UCproblem.compute_cost`.  Returns `none` when the Python code would
raise `ZeroDivisionError` (thermal plant with efficiency 0).  The final
`else: raise Exception(...)` branch of the source is unreachable here
because `PowerplantEnum` is a closed enumeration, exactly as pydantic
guarantees for the Python code. -/
def compute_cost (fuels : Fuels) (powerplant : Powerplant) : Option ℚ :=
  match powerplant.type with
  | .windturbine => some 0
  | .gasfired =>
      if powerplant.efficiency = 0 then none
      else some (fuels.gas / powerplant.efficiency)
  | .turbojet =>
      if powerplant.efficiency = 0 then none
      else some (fuels.kerosine / powerplant.efficiency)

/-- The inner `while not inserted and j < len(...)` insertion of
`compute_merit_order`: scan the already-sorted prefix from the front and
insert `(cost, plant)` before the first entry whose cost is `≥ cost`
(the source condition is `cost <= self.merit_order_val[j]`); append at
the end if no such entry exists.  The two parallel lists of the source
(`merit_order_val` and `ordered_powerplants`) are inserted at the same
index, so they are modelled as one list of pairs. -/
def insert_merit (cost : ℚ) (p : Powerplant) :
    List (ℚ × Powerplant) → List (ℚ × Powerplant)
  | [] => [(cost, p)]
  | e :: rest => if cost ≤ e.1 then (cost, p) :: e :: rest
                 else e :: insert_merit cost p rest

/-- The `for i in range(1, len(self.powerplants))` loop of
`compute_merit_order`: fold the remaining plants into the accumulator,
aborting (`none`) if a cost computation raises. -/
def merit_insert_all (fuels : Fuels) :
    List Powerplant → List (ℚ × Powerplant) → Option (List (ℚ × Powerplant))
  | [], acc => some acc
  | p :: ps, acc =>
      match compute_cost fuels p with
      | none => none
      | some c => merit_insert_all fuels ps (insert_merit c p acc)

/-- `UCproblem.compute_merit_order`.  The source starts from
`[self.powerplants[0]]`, so an empty plant list raises `IndexError`
(modelled as `none`); a failing cost computation also propagates. -/
def compute_merit_order (fuels : Fuels) (powerplants : List Powerplant) :
    Option (List (ℚ × Powerplant)) :=
  match powerplants with
  | [] => none
  | p :: ps =>
      match compute_cost fuels p with
      | none => none
      | some c => merit_insert_all fuels ps [(c, p)]

/-- `UCproblem.get_p_min`. -/
def get_p_min (fuels : Fuels) (powerplant : Powerplant) : ℚ :=
  if powerplant.type = .windturbine then powerplant.pmax * fuels.wind / 100
  else powerplant.pmin

/-- `UCproblem.get_p_max`. -/
def get_p_max (fuels : Fuels) (powerplant : Powerplant) : ℚ :=
  if powerplant.type = .windturbine then powerplant.pmax * fuels.wind / 100
  else powerplant.pmax

/-- The `while powerplant >= 0` loop of `UCproblem.decrease_total_load`,
working on the scratch copies `new_load` and `new_solution`.  The
argument `k` is `powerplant + 1`, so `k = 0` is the loop exit
(`powerplant < 0`), and `k = i + 1` considers index `i`.  The result is
`some none` for the loop falling through (return `False`),
`some (some s)` for success with final scratch solution `s`, and `none`
for an `IndexError` on `self.powerplants[powerplant]` or
`new_solution[powerplant]`. -/
def decrease_aux (fuels : Fuels) (plants : List Powerplant) (load : ℚ) :
    ℕ → ℚ → List ℚ → Option (Option (List ℚ))
  | 0, _, _ => some none
  | k + 1, new_load, new_solution =>
      match plants[k]?, new_solution[k]? with
      | some plant, some cur =>
          if get_p_min fuels plant < cur then
            let possible_decrease := cur - get_p_min fuels plant
            if new_load - possible_decrease ≤ load then
              some (some (new_solution.set k (cur - (new_load - load))))
            else
              decrease_aux fuels plants load k (new_load - possible_decrease)
                (new_solution.set k (cur - possible_decrease))
          else
            decrease_aux fuels plants load k new_load new_solution
      | _, _ => none

/-- `UCproblem.decrease_total_load`.  On success the source commits
`self.solution = new_solution` and `self.current_load =
sum(new_solution)`; on failure it returns `False` with the committed
state untouched. -/
def decrease_total_load (fuels : Fuels) (plants : List Powerplant) (load : ℚ)
    (powerplant : ℤ) (st : SolverState) : Option (Bool × SolverState) :=
  match decrease_aux fuels plants load (powerplant + 1).toNat
      st.current_load st.solution with
  | none => none
  | some none => some (false, st)
  | some (some s) => some (true, ⟨s, s.sum⟩)

/-- `UCproblem.build_solution`.  The source walks `self.powerplants` by
index; here the still-unvisited suffix is passed as an explicit list
(`rest = plants.drop powerplant`) so that the recursion is structural.
The case `rest = []` is the source accessing
`self.powerplants[powerplant]` one past the end: an `IndexError`,
modelled as `none`. -/
def build_solution (fuels : Fuels) (plants : List Powerplant) (load : ℚ) :
    List Powerplant → ℕ → SolverState → Option (Bool × SolverState)
  | [], _, _ => none
  | plant :: rest, powerplant, st =>
      if st.current_load + get_p_max fuels plant < load then
        match build_solution fuels plants load rest (powerplant + 1)
            ⟨st.solution.set powerplant (get_p_max fuels plant),
             st.current_load + get_p_max fuels plant⟩ with
        | none => none
        | some (true, st2) => some (true, st2)
        | some (false, st2) =>
            some (false, ⟨st2.solution.set powerplant 0,
                          st2.current_load - get_p_max fuels plant⟩)
      else if load < st.current_load + get_p_min fuels plant then
        match decrease_total_load fuels plants load ((powerplant : ℤ) - 1)
            ⟨st.solution.set powerplant (get_p_min fuels plant),
             st.current_load + get_p_min fuels plant⟩ with
        | none => none
        | some (true, st2) => some (true, st2)
        | some (false, st2) =>
            some (false, ⟨st2.solution.set powerplant 0,
                          st2.current_load - get_p_min fuels plant⟩)
      else
        some (true, ⟨st.solution.set powerplant (load - st.current_load),
                     st.current_load + (load - st.current_load)⟩)

/-- `UCproblem.compute_UC`: compute the merit order, reinitialise
`self.solution` to zeros of the same length, and run the backtracking
search from index 0.  The reordered plant list is returned alongside the
flag and final state (the source keeps it in `self.powerplants`). -/
def compute_UC (load : ℚ) (fuels : Fuels) (powerplants : List Powerplant) :
    Option (Bool × List Powerplant × SolverState) :=
  match compute_merit_order fuels powerplants with
  | none => none
  | some mo =>
      let ordered := mo.map Prod.snd
      match build_solution fuels ordered load ordered 0
          ⟨List.replicate ordered.length 0, 0⟩ with
      | none => none
      | some (b, st) => some (b, ordered, st)

/-- `UCproblem.get_solution`: pair each (merit-ordered) plant's name
with its allocated power. -/
def get_solution (plants : List Powerplant) (st : SolverState) :
    List (String × ℚ) :=
  (plants.zip st.solution).map (fun pr => (pr.1.name, pr.2))

/-- The `/productionplan` endpoint of `api.py`: solve, then return the
named allocation on success and the empty list on a `False` result;
`none` models an unhandled exception escaping the endpoint. -/
def productionplan (payload : Payload) : Option (List (String × ℚ)) :=
  match compute_UC payload.load payload.fuels payload.powerplants with
  | none => none
  | some (true, plants, st) => some (get_solution plants st)
  | some (false, _, _) => some []

/-- The payload of the test scenario (`tests.py` `setUp`). -/
def scenarioFuels : Fuels := ⟨13.4, 50.8, 20, 60⟩

def gasfiredbig1 : Powerplant := ⟨"gasfiredbig1", .gasfired, 0.53, 100, 460⟩

def gasfiredbig2 : Powerplant := ⟨"gasfiredbig2", .gasfired, 0.53, 100, 460⟩

def gasfiredsomewhatsmaller : Powerplant :=
  ⟨"gasfiredsomewhatsmaller", .gasfired, 0.37, 40, 210⟩

def tj1 : Powerplant := ⟨"tj1", .turbojet, 0.3, 0, 16⟩

def windpark1 : Powerplant := ⟨"windpark1", .windturbine, 1, 0, 150⟩

def windpark2 : Powerplant := ⟨"windpark2", .windturbine, 1, 0, 36⟩

def scenarioPlants : List Powerplant :=
  [gasfiredbig1, gasfiredbig2, gasfiredsomewhatsmaller, tj1, windpark1,
   windpark2]

/-- The merit-ordered plant list of the scenario. -/
def orderedScenarioPlants : List Powerplant :=
  [windpark2, windpark1, gasfiredbig2, gasfiredbig1, gasfiredsomewhatsmaller,
   tj1]

/-! ### Auxiliary list lemmas -/

lemma sum_set_of_get? (l : List ℚ) (i : ℕ) (a v : ℚ) (h : l[i]? = some v) :
    (l.set i a).sum = l.sum - v + a := by
  induction l generalizing i with
  | nil => simp at h
  | cons x xs ih =>
      cases i with
      | zero =>
          simp only [List.getElem?_cons_zero, Option.some_inj] at h
          subst h
          simp [List.set]
          ring
      | succ n =>
          simp only [List.getElem?_cons_succ] at h
          simp only [List.set, List.sum_cons, ih n h]
          ring

lemma set_get?_same (l : List ℚ) (i : ℕ) (v : ℚ) (h : l[i]? = some v) :
    l.set i v = l := by
  induction l generalizing i with
  | nil => simp at h
  | cons x xs ih =>
      cases i with
      | zero =>
          simp only [List.getElem?_cons_zero, Option.some_inj] at h
          subst h
          rfl
      | succ n =>
          simp only [List.getElem?_cons_succ] at h
          simp [List.set, ih n h]

lemma get?_replicate_zero (n i : ℕ) (h : i < n) :
    (List.replicate n (0 : ℚ))[i]? = some 0 := by
  induction n generalizing i with
  | zero => omega
  | succ m ih =>
      cases i with
      | zero => simp [List.replicate]
      | succ j =>
          simp only [List.replicate, List.getElem?_cons_succ]
          exact ih j (by omega)

lemma drop_cons_get? {α : Type} (l : List α) (i : ℕ) (x : α) (xs : List α)
    (h : l.drop i = x :: xs) : l[i]? = some x := by
  induction l generalizing i with
  | nil => simp at h
  | cons y ys ih =>
      cases i with
      | zero => simp at h; simp [h.1]
      | succ n =>
          simp only [List.drop_succ_cons] at h
          simpa using ih n h

lemma drop_cons_succ {α : Type} (l : List α) (i : ℕ) (x : α) (xs : List α)
    (h : l.drop i = x :: xs) : l.drop (i + 1) = xs := by
  induction l generalizing i with
  | nil => simp at h
  | cons y ys ih =>
      cases i with
      | zero => simp at h ⊢; exact h.2
      | succ n =>
          simp only [List.drop_succ_cons] at h ⊢
          exact ih n h

/-! ### Merit-order lemmas -/

lemma insert_merit_perm (c : ℚ) (p : Powerplant) (l : List (ℚ × Powerplant)) :
    (insert_merit c p l).Perm ((c, p) :: l) := by
  induction l with
  | nil => exact List.Perm.refl _
  | cons e rest ih =>
      by_cases h : c ≤ e.1
      · simp only [insert_merit, if_pos h]
        exact List.Perm.refl _
      · simp only [insert_merit, if_neg h]
        exact (ih.cons e).trans (List.Perm.swap (c, p) e rest)

lemma mem_insert_merit {c : ℚ} {p : Powerplant} {l : List (ℚ × Powerplant)}
    {f : ℚ × Powerplant} (h : f ∈ insert_merit c p l) :
    f = (c, p) ∨ f ∈ l := by
  have := (insert_merit_perm c p l).mem_iff.mp h
  simpa using this

lemma insert_merit_sorted (c : ℚ) (p : Powerplant)
    (l : List (ℚ × Powerplant))
    (h : l.Pairwise (fun e f => e.1 ≤ f.1)) :
    (insert_merit c p l).Pairwise (fun e f => e.1 ≤ f.1) := by
  induction l with
  | nil => simp [insert_merit]
  | cons e rest ih =>
      rcases List.pairwise_cons.mp h with ⟨he, hrest⟩
      by_cases hc : c ≤ e.1
      · simp only [insert_merit, if_pos hc]
        refine List.pairwise_cons.mpr ⟨?_, h⟩
        intro f hf
        rcases List.mem_cons.mp hf with hfe | hfr
        · exact hfe ▸ hc
        · exact le_trans hc (he f hfr)
      · simp only [insert_merit, if_neg hc]
        refine List.pairwise_cons.mpr ⟨?_, ih hrest⟩
        intro f hf
        rcases mem_insert_merit hf with hfe | hfr
        · exact hfe ▸ (le_of_not_le hc)
        · exact he f hfr

lemma insert_merit_append (c : ℚ) (p : Powerplant)
    (l : List (ℚ × Powerplant)) (h : ∀ e ∈ l, e.1 < c) :
    insert_merit c p l = l ++ [(c, p)] := by
  induction l with
  | nil => rfl
  | cons e rest ih =>
      have he : e.1 < c := h e (List.mem_cons_self e rest)
      simp only [insert_merit, if_neg (not_le.mpr he), List.cons_append]
      rw [ih (fun f hf => h f (List.mem_cons_of_mem e hf))]

/-- Specification-side companion of `merit_insert_all`: the list of
`(cost, plant)` pairs in input order, `none` if any cost computation
raises. -/
def cost_pairs (fuels : Fuels) : List Powerplant → Option (List (ℚ × Powerplant))
  | [] => some []
  | p :: ps =>
      match compute_cost fuels p, cost_pairs fuels ps with
      | some c, some rest => some ((c, p) :: rest)
      | _, _ => none

lemma cost_pairs_map_snd (fuels : Fuels) :
    ∀ (ps : List Powerplant) (cps : List (ℚ × Powerplant)),
      cost_pairs fuels ps = some cps → cps.map Prod.snd = ps := by
  intro ps
  induction ps with
  | nil => intro cps h; simp [cost_pairs] at h; simp [← h]
  | cons p ps ih =>
      intro cps h
      simp only [cost_pairs] at h
      cases hc : compute_cost fuels p with
      | none => rw [hc] at h; simp at h
      | some c =>
          rw [hc] at h
          cases hr : cost_pairs fuels ps with
          | none => rw [hr] at h; simp at h
          | some rest =>
              rw [hr] at h
              simp only [Option.some_inj] at h
              subst h
              simp [ih rest hr]

lemma cost_pairs_mem (fuels : Fuels) :
    ∀ (ps : List Powerplant) (cps : List (ℚ × Powerplant)),
      cost_pairs fuels ps = some cps →
      ∀ e ∈ cps, compute_cost fuels e.2 = some e.1 := by
  intro ps
  induction ps with
  | nil => intro cps h e he; simp [cost_pairs] at h; subst h; simp at he
  | cons p ps ih =>
      intro cps h e he
      simp only [cost_pairs] at h
      cases hc : compute_cost fuels p with
      | none => rw [hc] at h; simp at h
      | some c =>
          rw [hc] at h
          cases hr : cost_pairs fuels ps with
          | none => rw [hr] at h; simp at h
          | some rest =>
              rw [hr] at h
              simp only [Option.some_inj] at h
              subst h
              rcases List.mem_cons.mp he with rfl | hrest
              · exact hc
              · exact ih rest hr e hrest

lemma cost_pairs_of_pairing (fuels : Fuels) :
    ∀ (l : List (ℚ × Powerplant)),
      (∀ e ∈ l, compute_cost fuels e.2 = some e.1) →
      cost_pairs fuels (l.map Prod.snd) = some l := by
  intro l
  induction l with
  | nil => intro _; rfl
  | cons e l ih =>
      intro h
      have he : compute_cost fuels e.2 = some e.1 :=
        h e (List.mem_cons_self e l)
      have hrest := ih (fun f hf => h f (List.mem_cons_of_mem e hf))
      simp only [List.map_cons, cost_pairs, he, hrest]

lemma merit_insert_all_eq (fuels : Fuels) :
    ∀ (ps : List Powerplant) (acc mo : List (ℚ × Powerplant)),
      merit_insert_all fuels ps acc = some mo →
      ∃ cps, cost_pairs fuels ps = some cps ∧ mo.Perm (cps ++ acc) := by
  intro ps
  induction ps with
  | nil =>
      intro acc mo h
      simp only [merit_insert_all, Option.some_inj] at h
      exact ⟨[], rfl, by simp [← h]⟩
  | cons p ps ih =>
      intro acc mo h
      simp only [merit_insert_all] at h
      cases hc : compute_cost fuels p with
      | none => rw [hc] at h; simp at h
      | some c =>
          rw [hc] at h
          rcases ih (insert_merit c p acc) mo h with ⟨cps, hcps, hperm⟩
          refine ⟨(c, p) :: cps, by simp [cost_pairs, hc, hcps], ?_⟩
          have h1 : (cps ++ insert_merit c p acc).Perm (cps ++ (c, p) :: acc) :=
            List.Perm.append_left cps (insert_merit_perm c p acc)
          have h2 : (cps ++ (c, p) :: acc).Perm ((c, p) :: (cps ++ acc)) :=
            List.perm_middle
          exact hperm.trans (h1.trans h2)

lemma merit_insert_all_sorted (fuels : Fuels) :
    ∀ (ps : List Powerplant) (acc mo : List (ℚ × Powerplant)),
      merit_insert_all fuels ps acc = some mo →
      acc.Pairwise (fun e f => e.1 ≤ f.1) →
      mo.Pairwise (fun e f => e.1 ≤ f.1) := by
  intro ps
  induction ps with
  | nil =>
      intro acc mo h hs
      simp only [merit_insert_all, Option.some_inj] at h
      exact h ▸ hs
  | cons p ps ih =>
      intro acc mo h hs
      simp only [merit_insert_all] at h
      cases hc : compute_cost fuels p with
      | none => rw [hc] at h; simp at h
      | some c =>
          rw [hc] at h
          exact ih (insert_merit c p acc) mo h (insert_merit_sorted c p acc hs)

lemma merit_insert_all_isSome_of (fuels : Fuels) :
    ∀ (ps : List Powerplant) (acc : List (ℚ × Powerplant)),
      (∀ p ∈ ps, (compute_cost fuels p).isSome) →
      (merit_insert_all fuels ps acc).isSome := by
  intro ps
  induction ps with
  | nil => intro acc _; simp [merit_insert_all]
  | cons p ps ih =>
      intro acc h
      have hp : (compute_cost fuels p).isSome := h p (List.mem_cons_self p ps)
      cases hc : compute_cost fuels p with
      | none => rw [hc] at hp; simp at hp
      | some c =>
          simp only [merit_insert_all, hc]
          exact ih (insert_merit c p acc) fun q hq => h q (List.mem_cons_of_mem p hq)

lemma merit_insert_all_cost_isSome (fuels : Fuels) :
    ∀ (ps : List Powerplant) (acc mo : List (ℚ × Powerplant)),
      merit_insert_all fuels ps acc = some mo →
      ∀ p ∈ ps, (compute_cost fuels p).isSome := by
  intro ps
  induction ps with
  | nil => intro acc mo _ p hp; simp at hp
  | cons p ps ih =>
      intro acc mo h q hq
      simp only [merit_insert_all] at h
      cases hc : compute_cost fuels p with
      | none => rw [hc] at h; simp at h
      | some c =>
          rw [hc] at h
          rcases List.mem_cons.mp hq with rfl | hmem
          · simp [hc]
          · exact ih (insert_merit c p acc) mo h q hmem

/-- Everything `compute_merit_order` guarantees on success: the result
is a permutation of the input's `(cost, plant)` pairs, sorted by cost. -/
lemma compute_merit_order_spec (fuels : Fuels) (plants : List Powerplant)
    (mo : List (ℚ × Powerplant))
    (h : compute_merit_order fuels plants = some mo) :
    ∃ cps, cost_pairs fuels plants = some cps ∧ mo.Perm cps ∧
      mo.Pairwise (fun e f => e.1 ≤ f.1) := by
  cases plants with
  | nil => simp [compute_merit_order] at h
  | cons p ps =>
      simp only [compute_merit_order] at h
      cases hc : compute_cost fuels p with
      | none => rw [hc] at h; simp at h
      | some c =>
          rw [hc] at h
          rcases merit_insert_all_eq fuels ps [(c, p)] mo h with ⟨cps, hcps, hperm⟩
          refine ⟨(c, p) :: cps, by simp [cost_pairs, hc, hcps], ?_, ?_⟩
          · exact hperm.trans (List.perm_append_singleton (c, p) cps)
          · exact merit_insert_all_sorted fuels ps [(c, p)] mo h (by simp)

lemma compute_merit_order_perm (fuels : Fuels) (plants : List Powerplant)
    (mo : List (ℚ × Powerplant))
    (h : compute_merit_order fuels plants = some mo) :
    (mo.map Prod.snd).Perm plants := by
  rcases compute_merit_order_spec fuels plants mo h with ⟨cps, hcps, hperm, _⟩
  have := hperm.map Prod.snd
  rwa [cost_pairs_map_snd fuels plants cps hcps] at this

lemma compute_merit_order_pairing (fuels : Fuels) (plants : List Powerplant)
    (mo : List (ℚ × Powerplant))
    (h : compute_merit_order fuels plants = some mo) :
    ∀ e ∈ mo, compute_cost fuels e.2 = some e.1 := by
  rcases compute_merit_order_spec fuels plants mo h with ⟨cps, hcps, hperm, _⟩
  intro e he
  exact cost_pairs_mem fuels plants cps hcps e (hperm.mem_iff.mp he)

lemma compute_merit_order_cost_isSome (fuels : Fuels)
    (plants : List Powerplant) (mo : List (ℚ × Powerplant))
    (h : compute_merit_order fuels plants = some mo) :
    ∀ p ∈ plants, (compute_cost fuels p).isSome := by
  cases plants with
  | nil => simp [compute_merit_order] at h
  | cons p ps =>
      simp only [compute_merit_order] at h
      cases hc : compute_cost fuels p with
      | none => rw [hc] at h; simp at h
      | some c =>
          rw [hc] at h
          intro q hq
          rcases List.mem_cons.mp hq with rfl | hmem
          · simp [hc]
          · exact merit_insert_all_cost_isSome fuels ps [(c, p)] mo h q hmem

/-! ### Unwind (`decrease_total_load`) lemmas -/

/-- The data-model precondition on a plant (spec §3: `0 ≤ pmin ≤ pmax`,
wind availability in percent), phrased on the effective range. -/
def PlantOK (fuels : Fuels) (p : Powerplant) : Prop :=
  0 ≤ get_p_min fuels p ∧ get_p_min fuels p ≤ get_p_max fuels p

instance (fuels : Fuels) (p : Powerplant) : Decidable (PlantOK fuels p) := by
  unfold PlantOK; infer_instance

lemma decrease_aux_sum (fuels : Fuels) (plants : List Powerplant) (load : ℚ) :
    ∀ (k : ℕ) (nl : ℚ) (ns s : List ℚ),
      decrease_aux fuels plants load k nl ns = some (some s) →
      nl = ns.sum → s.sum = load := by
  intro k
  induction k with
  | zero => intro nl ns s h _; simp [decrease_aux] at h
  | succ k ih =>
      intro nl ns s h hsum
      cases hp : plants[k]? with
      | none => simp [decrease_aux, hp] at h
      | some plant =>
          cases hc : ns[k]? with
          | none => simp [decrease_aux, hp, hc] at h
          | some cur =>
              simp only [decrease_aux, hp, hc] at h
              by_cases h1 : get_p_min fuels plant < cur
              · rw [if_pos h1] at h
                by_cases h2 : nl - (cur - get_p_min fuels plant) ≤ load
                · rw [if_pos h2] at h
                  simp only [Option.some_inj] at h
                  have hset := sum_set_of_get? ns k (cur - (nl - load)) cur hc
                  rw [← h, hset, ← hsum]
                  ring
                · rw [if_neg h2] at h
                  have hsum2 : nl - (cur - get_p_min fuels plant) =
                      (ns.set k (cur - (cur - get_p_min fuels plant))).sum := by
                    rw [sum_set_of_get? ns k _ cur hc, ← hsum]
                    ring
                  exact ih _ _ s h hsum2
              · rw [if_neg h1] at h
                exact ih nl ns s h hsum

lemma decrease_aux_bounds (fuels : Fuels) (plants : List Powerplant)
    (load : ℚ) (hok : ∀ p ∈ plants, PlantOK fuels p) :
    ∀ (k : ℕ) (nl : ℚ) (ns s : List ℚ),
      decrease_aux fuels plants load k nl ns = some (some s) →
      load ≤ nl →
      (∀ (i : ℕ) (p : Powerplant) (v : ℚ), plants[i]? = some p → ns[i]? = some v →
          v = 0 ∨ (get_p_min fuels p ≤ v ∧ v ≤ get_p_max fuels p)) →
      (∀ (i : ℕ) (p : Powerplant) (v : ℚ), plants[i]? = some p → s[i]? = some v →
          v = 0 ∨ (get_p_min fuels p ≤ v ∧ v ≤ get_p_max fuels p)) := by
  intro k
  induction k with
  | zero => intro nl ns s h _ _; simp [decrease_aux] at h
  | succ k ih =>
      intro nl ns s h hle hbnd
      cases hp : plants[k]? with
      | none => simp [decrease_aux, hp] at h
      | some plant =>
          cases hc : ns[k]? with
          | none => simp [decrease_aux, hp, hc] at h
          | some cur =>
              simp only [decrease_aux, hp, hc] at h
              have hklen : k < ns.length := by
                rcases List.getElem?_eq_some.mp hc with ⟨hlt, _⟩
                exact hlt
              have hcur : get_p_min fuels plant ≤ cur ∧
                  cur ≤ get_p_max fuels plant → True := fun _ => trivial
              by_cases h1 : get_p_min fuels plant < cur
              · rw [if_pos h1] at h
                have hplant_mem : plant ∈ plants := List.getElem?_mem hp
                have hokp := hok plant hplant_mem
                have hcur_rng : get_p_min fuels plant ≤ cur ∧
                    cur ≤ get_p_max fuels plant := by
                  rcases hbnd k plant cur hp hc with h0 | hr
                  · exfalso; rw [h0] at h1; exact absurd h1 (not_lt.mpr hokp.1)
                  · exact hr
                by_cases h2 : nl - (cur - get_p_min fuels plant) ≤ load
                · rw [if_pos h2] at h
                  simp only [Option.some_inj] at h
                  subst h
                  intro i p v hip hiv
                  by_cases hik : i = k
                  · subst hik
                    rw [hp] at hip
                    injection hip with hip
                    subst hip
                    rw [List.getElem?_set_eq_of_lt _ hklen] at hiv
                    injection hiv with hiv
                    subst hiv
                    right
                    constructor
                    · linarith [h2]
                    · linarith [hle, hcur_rng.2]
                  · rw [List.getElem?_set_ne (fun hkk => hik hkk.symm)] at hiv
                    exact hbnd i p v hip hiv
                · rw [if_neg h2] at h
                  refine ih _ _ s h (by linarith [not_le.mp h2]) ?_
                  intro i p v hip hiv
                  by_cases hik : i = k
                  · subst hik
                    rw [hp] at hip
                    injection hip with hip
                    subst hip
                    rw [List.getElem?_set_eq_of_lt _ hklen] at hiv
                    injection hiv with hiv
                    subst hiv
                    right
                    constructor
                    · linarith
                    · linarith [hokp.2]
                  · rw [List.getElem?_set_ne (fun hkk => hik hkk.symm)] at hiv
                    exact hbnd i p v hip hiv
              · rw [if_neg h1] at h
                exact ih nl ns s h hle hbnd

/-! ### Backtracking search (`build_solution`) lemmas -/

lemma build_spec_sum (fuels : Fuels) (plants : List Powerplant) (load : ℚ) :
    ∀ (rest : List Powerplant) (pp : ℕ) (st : SolverState) (b : Bool)
      (st2 : SolverState),
      build_solution fuels plants load rest pp st = some (b, st2) →
      plants.drop pp = rest →
      st.solution.length = plants.length →
      st.current_load = st.solution.sum →
      (∀ i, pp ≤ i → i < st.solution.length → st.solution[i]? = some 0) →
      (b = false → st2 = st) ∧
      (b = true → st2.current_load = load ∧
        st2.current_load = st2.solution.sum) := by
  intro rest
  induction rest with
  | nil =>
      intro pp st b st2 h _ _ _ _
      simp [build_solution] at h
  | cons plant rest ih =>
      intro pp st b st2 h hdrop hlen hsum hzero
      have hpp : plants[pp]? = some plant := drop_cons_get? plants pp plant rest hdrop
      have hpplt2 : pp < st.solution.length := by
        rcases List.getElem?_eq_some.mp hpp with ⟨hlt, _⟩
        omega
      have hz : st.solution[pp]? = some 0 := hzero pp le_rfl hpplt2
      simp only [build_solution] at h
      by_cases h1 : st.current_load + get_p_max fuels plant < load
      · rw [if_pos h1] at h
        have hinv1 : (st.solution.set pp (get_p_max fuels plant)).length =
            plants.length := by simp [hlen]
        have hinv2 : st.current_load + get_p_max fuels plant =
            (st.solution.set pp (get_p_max fuels plant)).sum := by
          rw [sum_set_of_get? _ _ _ _ hz, hsum]; ring
        have hinv3 : ∀ i, pp + 1 ≤ i →
            i < (st.solution.set pp (get_p_max fuels plant)).length →
            (st.solution.set pp (get_p_max fuels plant))[i]? = some 0 := by
          intro i hi hilen
          rw [List.getElem?_set_ne (by omega)]
          exact hzero i (by omega) (by simpa using hilen)
        cases hb : build_solution fuels plants load rest (pp + 1)
            ⟨st.solution.set pp (get_p_max fuels plant),
             st.current_load + get_p_max fuels plant⟩ with
        | none => rw [hb] at h; simp at h
        | some pr =>
            obtain ⟨b1, st3⟩ := pr
            rw [hb] at h
            have hih := ih (pp + 1)
                ⟨st.solution.set pp (get_p_max fuels plant),
                 st.current_load + get_p_max fuels plant⟩ b1 st3 hb
                (drop_cons_succ plants pp plant rest hdrop) hinv1 hinv2 hinv3
            cases b1 with
            | true =>
                simp only [Option.some_inj, Prod.mk.injEq] at h
                obtain ⟨hbb, hst⟩ := h
                subst hbb
                subst hst
                refine ⟨fun hc => by simp at hc, fun _ => hih.2 rfl⟩
            | false =>
                simp only [Option.some_inj, Prod.mk.injEq] at h
                obtain ⟨hbb, hst⟩ := h
                subst hbb
                have hst3 := hih.1 rfl
                rw [hst3] at hst
                simp only at hst
                refine ⟨fun _ => ?_, fun hc => by simp at hc⟩
                rw [← hst]
                have e1 : ((st.solution.set pp (get_p_max fuels plant)).set pp 0)
                    = st.solution := by
                  rw [List.set_set, set_get?_same _ _ _ hz]
                have e2 : st.current_load + get_p_max fuels plant -
                    get_p_max fuels plant = st.current_load := by ring
                rw [e1, e2]
      · rw [if_neg h1] at h
        by_cases h2 : load < st.current_load + get_p_min fuels plant
        · rw [if_pos h2] at h
          have hk : (((pp : ℤ) - 1) + 1).toNat = pp := by omega
          simp only [decrease_total_load] at h
          rw [hk] at h
          have hinv2 : st.current_load + get_p_min fuels plant =
              (st.solution.set pp (get_p_min fuels plant)).sum := by
            rw [sum_set_of_get? _ _ _ _ hz, hsum]; ring
          cases hd : decrease_aux fuels plants load pp
              (st.current_load + get_p_min fuels plant)
              (st.solution.set pp (get_p_min fuels plant)) with
          | none => rw [hd] at h; simp at h
          | some r =>
              rw [hd] at h
              cases r with
              | none =>
                  simp only [Option.some_inj, Prod.mk.injEq] at h
                  obtain ⟨hbb, hst⟩ := h
                  subst hbb
                  refine ⟨fun _ => ?_, fun hc => by simp at hc⟩
                  rw [← hst]
                  have e1 : ((st.solution.set pp (get_p_min fuels plant)).set pp 0)
                      = st.solution := by
                    rw [List.set_set, set_get?_same _ _ _ hz]
                  have e2 : st.current_load + get_p_min fuels plant -
                      get_p_min fuels plant = st.current_load := by ring
                  rw [e1, e2]
              | some s =>
                  simp only [Option.some_inj, Prod.mk.injEq] at h
                  obtain ⟨hbb, hst⟩ := h
                  subst hbb
                  refine ⟨fun hc => by simp at hc, fun _ => ?_⟩
                  have hsml := decrease_aux_sum fuels plants load pp
                      (st.current_load + get_p_min fuels plant)
                      (st.solution.set pp (get_p_min fuels plant)) s hd hinv2
                  rw [← hst]
                  exact ⟨hsml, rfl⟩
        · rw [if_neg h2] at h
          simp only [Option.some_inj, Prod.mk.injEq] at h
          obtain ⟨hbb, hst⟩ := h
          subst hbb
          refine ⟨fun hc => by simp at hc, fun _ => ?_⟩
          rw [← hst]
          constructor
          · simp only
            ring
          · simp only
            rw [sum_set_of_get? _ _ _ _ hz, ← hsum]
            ring


lemma getElem?_set_some (l : List ℚ) (i : ℕ) (a v : ℚ)
    (h : (l.set i a)[i]? = some v) : v = a := by
  have hlt : i < (l.set i a).length := (List.getElem?_eq_some.mp h).1
  rw [List.length_set] at hlt
  rw [List.getElem?_set_eq_of_lt _ hlt] at h
  injection h with h
  exact h.symm

lemma build_spec_bounds (fuels : Fuels) (plants : List Powerplant) (load : ℚ)
    (hok : ∀ p ∈ plants, PlantOK fuels p) :
    ∀ (rest : List Powerplant) (pp : ℕ) (st st2 : SolverState),
      build_solution fuels plants load rest pp st = some (true, st2) →
      plants.drop pp = rest →
      (∀ (i : ℕ) (p : Powerplant) (v : ℚ), plants[i]? = some p →
          st.solution[i]? = some v →
          v = 0 ∨ (get_p_min fuels p ≤ v ∧ v ≤ get_p_max fuels p)) →
      (∀ (i : ℕ) (p : Powerplant) (v : ℚ), plants[i]? = some p →
          st2.solution[i]? = some v →
          v = 0 ∨ (get_p_min fuels p ≤ v ∧ v ≤ get_p_max fuels p)) := by
  intro rest
  induction rest with
  | nil =>
      intro pp st st2 h _ _
      simp [build_solution] at h
  | cons plant rest ih =>
      intro pp st st2 h hdrop hbnd
      have hpp : plants[pp]? = some plant := drop_cons_get? plants pp plant rest hdrop
      have hmem : plant ∈ plants := List.getElem?_mem hpp
      have hokp := hok plant hmem
      simp only [build_solution] at h
      by_cases h1 : st.current_load + get_p_max fuels plant < load
      · rw [if_pos h1] at h
        cases hb : build_solution fuels plants load rest (pp + 1)
            ⟨st.solution.set pp (get_p_max fuels plant),
             st.current_load + get_p_max fuels plant⟩ with
        | none => rw [hb] at h; simp at h
        | some pr =>
            obtain ⟨b1, st3⟩ := pr
            rw [hb] at h
            cases b1 with
            | true =>
                simp only [Option.some_inj, Prod.mk.injEq, true_and] at h
                rw [← h]
                refine ih (pp + 1)
                    ⟨st.solution.set pp (get_p_max fuels plant),
                     st.current_load + get_p_max fuels plant⟩ st3 hb
                    (drop_cons_succ plants pp plant rest hdrop) ?_
                intro i p v hip hiv
                simp only at hiv
                by_cases hik : i = pp
                · subst hik
                  rw [hpp] at hip
                  injection hip with hip
                  subst hip
                  have hv := getElem?_set_some _ _ _ _ hiv
                  subst hv
                  exact Or.inr ⟨hokp.2, le_refl _⟩
                · rw [List.getElem?_set_ne (fun hkk => hik hkk.symm)] at hiv
                  exact hbnd i p v hip hiv
            | false =>
                simp only [Option.some_inj, Prod.mk.injEq] at h
                exact absurd h.1.symm (by simp)
      · rw [if_neg h1] at h
        by_cases h2 : load < st.current_load + get_p_min fuels plant
        · rw [if_pos h2] at h
          have hk : (((pp : ℤ) - 1) + 1).toNat = pp := by omega
          simp only [decrease_total_load] at h
          rw [hk] at h
          cases hd : decrease_aux fuels plants load pp
              (st.current_load + get_p_min fuels plant)
              (st.solution.set pp (get_p_min fuels plant)) with
          | none => rw [hd] at h; simp at h
          | some r =>
              rw [hd] at h
              cases r with
              | none =>
                  simp only [Option.some_inj, Prod.mk.injEq] at h
                  exact absurd h.1.symm (by simp)
              | some s =>
                  simp only [Option.some_inj, Prod.mk.injEq, true_and] at h
                  have hbnd1 : ∀ (i : ℕ) (p : Powerplant) (v : ℚ),
                      plants[i]? = some p →
                      (st.solution.set pp (get_p_min fuels plant))[i]? = some v →
                      v = 0 ∨ (get_p_min fuels p ≤ v ∧ v ≤ get_p_max fuels p) := by
                    intro i p v hip hiv
                    by_cases hik : i = pp
                    · subst hik
                      rw [hpp] at hip
                      injection hip with hip
                      subst hip
                      have hv := getElem?_set_some _ _ _ _ hiv
                      subst hv
                      exact Or.inr ⟨le_refl _, hokp.2⟩
                    · rw [List.getElem?_set_ne (fun hkk => hik hkk.symm)] at hiv
                      exact hbnd i p v hip hiv
                  have hs := decrease_aux_bounds fuels plants load hok pp
                      (st.current_load + get_p_min fuels plant)
                      (st.solution.set pp (get_p_min fuels plant)) s hd
                      (le_of_lt h2) hbnd1
                  intro i p v hip hiv
                  rw [← h] at hiv
                  exact hs i p v hip hiv
        · rw [if_neg h2] at h
          simp only [Option.some_inj, Prod.mk.injEq, true_and] at h
          intro i p v hip hiv
          rw [← h] at hiv
          simp only at hiv
          by_cases hik : i = pp
          · subst hik
            rw [hpp] at hip
            injection hip with hip
            subst hip
            have hv := getElem?_set_some _ _ _ _ hiv
            subst hv
            refine Or.inr ⟨?_, ?_⟩
            · linarith [not_lt.mp h2]
            · linarith [not_lt.mp h1]
          · rw [List.getElem?_set_ne (fun hkk => hik hkk.symm)] at hiv
            exact hbnd i p v hip hiv

/-- Claim C3: for every request on which solve succeeds (`build_solution`
returns `True`), the sum of all values in the resulting allocation equals
the requested load exactly. -/
theorem claim_C3 (load : ℚ) (fuels : Fuels) (plants ps : List Powerplant)
    (st : SolverState)
    (h : compute_UC load fuels plants = some (true, ps, st)) :
    st.solution.sum = load := by
  cases hmo : compute_merit_order fuels plants with
  | none => simp [compute_UC, hmo] at h
  | some mo =>
      simp only [compute_UC, hmo] at h
      cases hb : build_solution fuels (mo.map Prod.snd) load (mo.map Prod.snd) 0
          ⟨List.replicate (mo.map Prod.snd).length 0, 0⟩ with
      | none => rw [hb] at h; simp at h
      | some pr =>
          obtain ⟨b, st0⟩ := pr
          rw [hb] at h
          simp only [Option.some_inj, Prod.mk.injEq] at h
          obtain ⟨hb1, _, hst⟩ := h
          subst hb1
          subst hst
          have hspec := build_spec_sum fuels (mo.map Prod.snd) load
              (mo.map Prod.snd) 0
              ⟨List.replicate (mo.map Prod.snd).length 0, 0⟩ true st0 hb
              (List.drop_zero _) (by simp) (by simp) ?_
          · rcases hspec.2 rfl with ⟨hload, hsumeq⟩
            rw [← hsumeq, hload]
          · intro i _ hilen
            simp only [List.length_replicate] at hilen
            exact get?_replicate_zero _ i hilen

/-- Claim C4: for every request on which solve succeeds, every plant's
allocated power is either exactly 0 or lies within that plant's
`[effective_min, effective_max]` range (`get_p_min`/`get_p_max` under the
request's fuel prices); the plants of the request satisfy the data-model
precondition `PlantOK` (`0 ≤ effective_min ≤ effective_max`, i.e.
`0 ≤ pmin ≤ pmax` and non-negative wind). -/
theorem claim_C4 (load : ℚ) (fuels : Fuels) (plants ps : List Powerplant)
    (st : SolverState)
    (hok : ∀ p ∈ plants, PlantOK fuels p)
    (h : compute_UC load fuels plants = some (true, ps, st)) :
    ∀ (i : ℕ) (p : Powerplant) (v : ℚ), ps[i]? = some p →
      st.solution[i]? = some v →
      v = 0 ∨ (get_p_min fuels p ≤ v ∧ v ≤ get_p_max fuels p) := by
  cases hmo : compute_merit_order fuels plants with
  | none => simp [compute_UC, hmo] at h
  | some mo =>
      simp only [compute_UC, hmo] at h
      cases hb : build_solution fuels (mo.map Prod.snd) load (mo.map Prod.snd) 0
          ⟨List.replicate (mo.map Prod.snd).length 0, 0⟩ with
      | none => rw [hb] at h; simp at h
      | some pr =>
          obtain ⟨b, st0⟩ := pr
          rw [hb] at h
          simp only [Option.some_inj, Prod.mk.injEq] at h
          obtain ⟨hb1, hps, hst⟩ := h
          subst hb1
          subst hst
          subst hps
          have hok2 : ∀ p ∈ mo.map Prod.snd, PlantOK fuels p := by
            intro p hp
            exact hok p ((compute_merit_order_perm fuels plants mo hmo).subset hp)
          refine build_spec_bounds fuels (mo.map Prod.snd) load hok2
              (mo.map Prod.snd) 0
              ⟨List.replicate (mo.map Prod.snd).length 0, 0⟩ st0 hb
              (List.drop_zero _) ?_
          intro i p v _ hiv
          left
          have hilen : i < (List.replicate (mo.map Prod.snd).length (0:ℚ)).length :=
            (List.getElem?_eq_some.mp hiv).1
          simp only [List.length_replicate] at hilen
          rw [get?_replicate_zero _ i hilen] at hiv
          injection hiv with hiv
          exact hiv.symm

lemma insert_merit_takeWhile (c : ℚ) (p : Powerplant) :
    ∀ l : List (ℚ × Powerplant),
      insert_merit c p l =
        l.takeWhile (fun e => e.1 < c) ++
          (c, p) :: l.dropWhile (fun e => e.1 < c) := by
  intro l
  induction l with
  | nil => rfl
  | cons e rest ih =>
      by_cases h : c ≤ e.1
      · have hb : (fun e : ℚ × Powerplant => decide (e.1 < c)) e = false := by
          simp [not_lt.mpr h]
        simp [insert_merit, if_pos h, List.takeWhile_cons, List.dropWhile_cons, hb]
      · have hb : (fun e : ℚ × Powerplant => decide (e.1 < c)) e = true := by
          simp [not_le.mp h]
        simp [insert_merit, if_neg h, List.takeWhile_cons, List.dropWhile_cons,
              hb, ih]

/-- The merit order of the test scenario, written out. -/
def scenarioMeritOrder : List (ℚ × Powerplant) :=
  [(0, windpark2), (0, windpark1), (1340/53, gasfiredbig2),
   (1340/53, gasfiredbig1), (1340/37, gasfiredsomewhatsmaller),
   (508/3, tj1)]

lemma scenario_merit_order :
    compute_merit_order scenarioFuels scenarioPlants =
      some scenarioMeritOrder := by
  norm_num +decide [compute_merit_order, merit_insert_all, insert_merit,
    compute_cost, scenarioFuels, scenarioPlants, scenarioMeritOrder,
    gasfiredbig1, gasfiredbig2, gasfiredsomewhatsmaller, tj1, windpark1,
    windpark2]

/-- Claim C5: for every non-empty plant list (on which the cost
computations succeed), `compute_merit_order` returns a permutation of the
input plants with a parallel cost list sorted ascending; a newly inserted
plant whose cost equals an existing entry's cost is placed before that
entry (the insertion point is right after the entries of strictly smaller
cost); on the six-plant scenario the resulting name order is
`[windpark2, windpark1, gasfiredbig2, gasfiredbig1,
gasfiredsomewhatsmaller, tj1]`. -/
theorem claim_C5 :
    (∀ (fuels : Fuels) (plants : List Powerplant)
        (mo : List (ℚ × Powerplant)),
        compute_merit_order fuels plants = some mo →
        (mo.map Prod.snd).Perm plants ∧
          (mo.map Prod.fst).Sorted (· ≤ ·)) ∧
    (∀ (c : ℚ) (p : Powerplant) (l : List (ℚ × Powerplant)),
        insert_merit c p l =
          l.takeWhile (fun e => e.1 < c) ++
            (c, p) :: l.dropWhile (fun e => e.1 < c)) ∧
    (compute_merit_order scenarioFuels scenarioPlants).map
        (fun mo => mo.map (fun e => e.2.name)) =
      some ["windpark2", "windpark1", "gasfiredbig2", "gasfiredbig1",
            "gasfiredsomewhatsmaller", "tj1"] := by
  refine ⟨?_, insert_merit_takeWhile, by rw [scenario_merit_order]; rfl⟩
  intro fuels plants mo h
  refine ⟨compute_merit_order_perm fuels plants mo h, ?_⟩
  rcases compute_merit_order_spec fuels plants mo h with ⟨cps, _, _, hsorted⟩
  exact (List.pairwise_map).mpr hsorted

/-- Witness for claim C5 at the test scenario. -/
theorem claim_C5_witness :
    (scenarioMeritOrder.map Prod.snd).Perm scenarioPlants ∧
      (scenarioMeritOrder.map Prod.fst).Sorted (· ≤ ·) :=
  claim_C5.1 scenarioFuels scenarioPlants scenarioMeritOrder
    scenario_merit_order

/-- Claim C6: when the unwind finds a plant whose allocation exceeds its
effective minimum and whose possible decrease reaches the target, it
reduces that plant's allocation by exactly the current overshoot
(`new_load - load`), not by the full possible decrease, and succeeds
immediately; concretely, with target 590, allocation
`[21.6, 90, 460, 100, 0, 0]` and the unwind started at index 2, the
committed allocation becomes `[21.6, 90, 378.4, 100, 0, 0]`. -/
theorem claim_C6 :
    (∀ (fuels : Fuels) (plants : List Powerplant) (load : ℚ) (k : ℕ)
        (nl : ℚ) (ns : List ℚ) (plant : Powerplant) (cur : ℚ),
        plants[k]? = some plant → ns[k]? = some cur →
        get_p_min fuels plant < cur →
        nl - (cur - get_p_min fuels plant) ≤ load →
        decrease_aux fuels plants load (k + 1) nl ns =
          some (some (ns.set k (cur - (nl - load))))) ∧
    decrease_total_load scenarioFuels orderedScenarioPlants 590 2
        ⟨[21.6, 90, 460, 100, 0, 0], 671.6⟩ =
      some (true, ⟨[21.6, 90, 378.4, 100, 0, 0], 590⟩) := by
  constructor
  · intro fuels plants load k nl ns plant cur hp hc h1 h2
    simp only [decrease_aux, hp, hc, if_pos h1, if_pos h2]
  · norm_num +decide [decrease_total_load, decrease_aux, get_p_min,
      orderedScenarioPlants, scenarioFuels, List.set, gasfiredbig1,
      gasfiredbig2, gasfiredsomewhatsmaller, tj1, windpark1, windpark2]

/-- Witness for claim C6's general clause: the scenario unwind at index 2
sheds exactly 81.6 from the plant at index 2. -/
theorem claim_C6_witness :
    decrease_aux scenarioFuels orderedScenarioPlants 590 3 671.6
        [21.6, 90, 460, 100, 0, 0] =
      some (some ([21.6, 90, 460, 100, 0, 0].set 2 (460 - (671.6 - 590)))) :=
  claim_C6.1 scenarioFuels orderedScenarioPlants 590 2 671.6
    [21.6, 90, 460, 100, 0, 0] gasfiredbig2 460
    (by norm_num [orderedScenarioPlants]) (by norm_num)
    (by norm_num +decide [get_p_min, gasfiredbig2, scenarioFuels])
    (by norm_num +decide [get_p_min, gasfiredbig2, scenarioFuels])

/-- Claim C7: whenever `decrease_total_load` returns `False`, the
committed allocation and running load are exactly what they were on
entry — the procedure works on scratch copies. -/
theorem claim_C7 (fuels : Fuels) (plants : List Powerplant) (load : ℚ)
    (powerplant : ℤ) (st st2 : SolverState)
    (h : decrease_total_load fuels plants load powerplant st =
      some (false, st2)) :
    st2 = st := by
  simp only [decrease_total_load] at h
  cases hd : decrease_aux fuels plants load (powerplant + 1).toNat
      st.current_load st.solution with
  | none => rw [hd] at h; simp at h
  | some r =>
      rw [hd] at h
      cases r with
      | none =>
          simp only [Option.some_inj, Prod.mk.injEq] at h
          exact h.2.symm
      | some s =>
          simp only [Option.some_inj, Prod.mk.injEq] at h
          exact absurd h.1 (by simp)

/-- Witness for claim C7: a failing unwind (started below index 0)
leaves the state `⟨[5], 5⟩` untouched. -/
theorem claim_C7_witness : (⟨[5], 5⟩ : SolverState) = ⟨[5], 5⟩ :=
  claim_C7 scenarioFuels [gasfiredbig1] 3 (-1) ⟨[5], 5⟩ ⟨[5], 5⟩
    (by norm_num [decrease_total_load, decrease_aux])

/-- Claim C1 (behaviour at the failing input): for a load of 1000 —
strictly above the only plant's `effective_max` of 460 — the search
walks past the end of the merit-ordered plant list and the model crashes
(`none`, an `IndexError` in `build_solution`) instead of returning
`False`; the endpoint therefore also crashes instead of returning `[]`. -/
theorem claim_C1_code_bug :
    get_p_max scenarioFuels gasfiredbig1 < 1000 ∧
    compute_UC 1000 scenarioFuels [gasfiredbig1] = none ∧
    productionplan ⟨1000, scenarioFuels, [gasfiredbig1]⟩ = none := by
  refine ⟨by norm_num +decide [get_p_max, gasfiredbig1, scenarioFuels], ?_, ?_⟩
  · norm_num +decide [compute_UC, compute_merit_order, merit_insert_all,
      insert_merit, compute_cost, build_solution, get_p_max, get_p_min,
      List.replicate, scenarioFuels, gasfiredbig1]
  · norm_num +decide [productionplan, compute_UC, compute_merit_order,
      merit_insert_all, insert_merit, compute_cost, build_solution,
      get_p_max, get_p_min, List.replicate, scenarioFuels, gasfiredbig1]

/-- Claim C2: for the test scenario (load 480, the six plants in their
input order), `compute_UC` succeeds and `get_solution` returns exactly
`[(windpark2, 21.6), (windpark1, 90), (gasfiredbig2, 368.4),
(gasfiredbig1, 0), (gasfiredsomewhatsmaller, 0), (tj1, 0)]` in that
order. -/
theorem claim_C2 :
    (compute_UC 480 scenarioFuels scenarioPlants).map
        (fun r => (r.1, get_solution r.2.1 r.2.2)) =
      some (true,
        [("windpark2", 21.6), ("windpark1", 90), ("gasfiredbig2", 368.4),
         ("gasfiredbig1", 0), ("gasfiredsomewhatsmaller", 0),
         ("tj1", 0)]) := by
  norm_num +decide [compute_UC, compute_merit_order, merit_insert_all,
    insert_merit, compute_cost, build_solution, decrease_total_load,
    decrease_aux, get_p_min, get_p_max, get_solution, List.replicate,
    List.set, scenarioFuels, scenarioPlants, gasfiredbig1, gasfiredbig2,
    gasfiredsomewhatsmaller, tj1, windpark1, windpark2]

/-- A well-formed gas plant used for the validation counterexamples. -/
def plantB : Powerplant := ⟨"plantB", .gasfired, 0.5, 0, 100⟩

/-- Fuel prices with a negative gas price. -/
def negFuels : Fuels := ⟨-1, 50.8, 20, 60⟩

/-- Counterexample to claim C8: a request with a negative fuel price is
not rejected — the core runs the search and silently returns a dispatch
result. -/
theorem claim_C8_counterexample :
    negFuels.gas < 0 ∧
    productionplan ⟨50, negFuels, [plantB]⟩ = some [("plantB", 50)] := by
  constructor
  · norm_num [negFuels]
  · norm_num +decide [productionplan, compute_UC, compute_merit_order,
      merit_insert_all, insert_merit, compute_cost, build_solution,
      get_p_max, get_p_min, get_solution, List.replicate, negFuels, plantB]

/-- Claim C8 as amended: the core performs no `InvalidRequest`
validation.  An empty plant list makes `compute_merit_order` raise an
index error (modelled `none`); a negative load runs the search and
yields the no-feasible-solution outcome (empty result); a negative fuel
price is used unchecked and the search can return a dispatch result. -/
theorem claim_C8_amended :
    (∀ fuels : Fuels, compute_merit_order fuels [] = none) ∧
    productionplan ⟨-5, scenarioFuels, [gasfiredbig1]⟩ = some [] ∧
    productionplan ⟨50, negFuels, [plantB]⟩ = some [("plantB", 50)] := by
  refine ⟨fun _ => rfl, ?_, ?_⟩
  · norm_num +decide [productionplan, compute_UC, compute_merit_order,
      merit_insert_all, insert_merit, compute_cost, build_solution,
      decrease_total_load, decrease_aux, get_p_max, get_p_min,
      get_solution, List.replicate, List.set, scenarioFuels, gasfiredbig1]
  · norm_num +decide [productionplan, compute_UC, compute_merit_order,
      merit_insert_all, insert_merit, compute_cost, build_solution,
      get_p_max, get_p_min, get_solution, List.replicate, negFuels, plantB]

/-! ### Re-running the merit order -/

lemma compute_merit_order_ne_nil (fuels : Fuels) (plants : List Powerplant)
    (mo : List (ℚ × Powerplant))
    (h : compute_merit_order fuels plants = some mo) : mo ≠ [] := by
  rcases compute_merit_order_spec fuels plants mo h with ⟨cps, hcps, hperm, _⟩
  cases plants with
  | nil => simp [compute_merit_order] at h
  | cons p ps =>
      intro hnil
      have hmap := cost_pairs_map_snd fuels (p :: ps) cps hcps
      have : cps = [] := by
        have := hperm.length_eq
        rw [hnil] at this
        exact List.eq_nil_of_length_eq_zero this.symm
      rw [this] at hmap
      simp at hmap

lemma merit_insert_all_strict (fuels : Fuels) :
    ∀ (l acc : List (ℚ × Powerplant)),
      (∀ e ∈ l, compute_cost fuels e.2 = some e.1) →
      (acc ++ l).Pairwise (fun e f => e.1 < f.1) →
      merit_insert_all fuels (l.map Prod.snd) acc = some (acc ++ l) := by
  intro l
  induction l with
  | nil => intro acc _ _; simp [merit_insert_all]
  | cons e l ih =>
      intro acc hpair hsort
      have he : compute_cost fuels e.2 = some e.1 :=
        hpair e (List.mem_cons_self e l)
      simp only [List.map_cons, merit_insert_all, he]
      have hacc : ∀ f ∈ acc, f.1 < e.1 := by
        intro f hf
        exact (List.pairwise_append.mp hsort).2.2 f hf e
          (List.mem_cons_self e l)
      rw [insert_merit_append e.1 e.2 acc hacc]
      have hsort2 : ((acc ++ [(e.1, e.2)]) ++ l).Pairwise
          (fun e f => e.1 < f.1) := by
        have : (acc ++ [(e.1, e.2)]) ++ l = acc ++ e :: l := by simp
        rw [this]
        exact hsort
      have hpair2 : ∀ f ∈ l, compute_cost fuels f.2 = some f.1 :=
        fun f hf => hpair f (List.mem_cons_of_mem e hf)
      rw [ih (acc ++ [(e.1, e.2)]) hpair2 hsort2]
      simp

lemma compute_merit_order_strict_fixed (fuels : Fuels)
    (mo : List (ℚ × Powerplant))
    (hpair : ∀ e ∈ mo, compute_cost fuels e.2 = some e.1)
    (hstrict : mo.Pairwise (fun e f => e.1 < f.1)) (hne : mo ≠ []) :
    compute_merit_order fuels (mo.map Prod.snd) = some mo := by
  cases mo with
  | nil => exact absurd rfl hne
  | cons e l =>
      have he : compute_cost fuels e.2 = some e.1 :=
        hpair e (List.mem_cons_self e l)
      simp only [List.map_cons, compute_merit_order, he]
      have hpair2 : ∀ f ∈ l, compute_cost fuels f.2 = some f.1 :=
        fun f hf => hpair f (List.mem_cons_of_mem e hf)
      have hsort2 : ([(e.1, e.2)] ++ l).Pairwise (fun e f => e.1 < f.1) := by
        simpa using hstrict
      have := merit_insert_all_strict fuels l [(e.1, e.2)] hpair2 hsort2
      rw [this]
      simp

lemma compute_merit_order_rerun (fuels : Fuels) (plants : List Powerplant)
    (mo : List (ℚ × Powerplant))
    (h : compute_merit_order fuels plants = some mo) :
    ∃ mo2, compute_merit_order fuels (mo.map Prod.snd) = some mo2 ∧
      mo2.Perm mo := by
  have hpair := compute_merit_order_pairing fuels plants mo h
  have hne := compute_merit_order_ne_nil fuels plants mo h
  cases hmo : mo with
  | nil => exact absurd hmo hne
  | cons e l =>
      subst hmo
      have he : compute_cost fuels e.2 = some e.1 :=
        hpair e (List.mem_cons_self e l)
      have hrest : (merit_insert_all fuels (l.map Prod.snd)
          [(e.1, e.2)]).isSome := by
        refine merit_insert_all_isSome_of fuels (l.map Prod.snd) _ ?_
        intro p hp
        rcases List.mem_map.mp hp with ⟨f, hf, hfp⟩
        rw [← hfp, hpair f (List.mem_cons_of_mem e hf)]
        rfl
      rcases Option.isSome_iff_exists.mp hrest with ⟨mo2, hmo2⟩
      refine ⟨mo2, ?_, ?_⟩
      · simp only [List.map_cons, compute_merit_order, he]
        exact hmo2
      · have hspec := merit_insert_all_eq fuels (l.map Prod.snd)
            [(e.1, e.2)] mo2 hmo2
        rcases hspec with ⟨cps, hcps, hperm⟩
        have hl : cost_pairs fuels (l.map Prod.snd) = some l :=
          cost_pairs_of_pairing fuels l
            (fun f hf => hpair f (List.mem_cons_of_mem e hf))
        rw [hl] at hcps
        injection hcps with hcps
        subst hcps
        refine hperm.trans ?_
        have : l ++ [(e.1, e.2)] = l ++ [e] := by simp
        rw [this]
        exact List.perm_append_singleton e l

/-- Counterexample to claim C9: `compute_merit_order` is not idempotent
on the plant ordering.  Starting from `[windpark1, windpark2]` (equal
cost 0) the first run yields the plant order `[windpark2, windpark1]`,
but re-running on that reordered list yields `[windpark1, windpark2]` —
equal-cost plants swap on every run. -/
theorem claim_C9_counterexample :
    compute_merit_order scenarioFuels [windpark1, windpark2] =
      some [(0, windpark2), (0, windpark1)] ∧
    compute_merit_order scenarioFuels
        ([(0, windpark2), (0, windpark1)].map Prod.snd) =
      some [(0, windpark1), (0, windpark2)] ∧
    ([(0, windpark1), (0, windpark2)] : List (ℚ × Powerplant)) ≠
      [(0, windpark2), (0, windpark1)] := by
  refine ⟨?_, ?_, ?_⟩
  · norm_num +decide [compute_merit_order, merit_insert_all, insert_merit,
      compute_cost, windpark1, windpark2]
  · norm_num +decide [compute_merit_order, merit_insert_all, insert_merit,
      compute_cost, windpark1, windpark2]
  · norm_num +decide [windpark1, windpark2]

/-- Claim C9 as amended: re-running `compute_merit_order` on the
already-reordered plants always succeeds, returns the same parallel cost
list and a permutation of the plants; the plant ordering itself is
reproduced whenever all costs are pairwise distinct (with equal costs
the relative order of the tied plants is reversed, see the
counterexample). -/
theorem claim_C9_amended :
    (∀ (fuels : Fuels) (plants : List Powerplant)
        (mo : List (ℚ × Powerplant)),
        compute_merit_order fuels plants = some mo →
        ∃ mo2, compute_merit_order fuels (mo.map Prod.snd) = some mo2 ∧
          mo2.map Prod.fst = mo.map Prod.fst ∧
          (mo2.map Prod.snd).Perm (mo.map Prod.snd)) ∧
    (∀ (fuels : Fuels) (plants : List Powerplant)
        (mo : List (ℚ × Powerplant)),
        compute_merit_order fuels plants = some mo →
        (mo.map Prod.fst).Pairwise (· ≠ ·) →
        compute_merit_order fuels (mo.map Prod.snd) = some mo) := by
  constructor
  · intro fuels plants mo h
    rcases compute_merit_order_rerun fuels plants mo h with ⟨mo2, hmo2, hperm⟩
    refine ⟨mo2, hmo2, ?_, hperm.map Prod.snd⟩
    have hs1 : mo.Pairwise (fun e f => e.1 ≤ f.1) :=
      (compute_merit_order_spec fuels plants mo h).choose_spec.2.2
    have hs2 : mo2.Pairwise (fun e f => e.1 ≤ f.1) :=
      (compute_merit_order_spec fuels (mo.map Prod.snd) mo2
        hmo2).choose_spec.2.2
    exact List.eq_of_perm_of_sorted (hperm.map Prod.fst)
      ((List.pairwise_map).mpr hs2) ((List.pairwise_map).mpr hs1)
  · intro fuels plants mo h hne
    have hpair := compute_merit_order_pairing fuels plants mo h
    have hsorted : mo.Pairwise (fun e f => e.1 ≤ f.1) :=
      (compute_merit_order_spec fuels plants mo h).choose_spec.2.2
    have hne2 : mo.Pairwise (fun e f : ℚ × Powerplant => e.1 ≠ f.1) :=
      (List.pairwise_map).mp hne
    have hstrict : mo.Pairwise (fun e f => e.1 < f.1) :=
      (hsorted.and hne2).imp (fun h => lt_of_le_of_ne h.1 h.2)
    exact compute_merit_order_strict_fixed fuels mo hpair hstrict
      (compute_merit_order_ne_nil fuels plants mo h)

/-- Witness for the amended claim C9: the scenario merit order has two
tied zero costs, so only the cost-list clause applies; on the distinct
-cost sublist `[gasfiredbig1, tj1]` the second run reproduces the merit
order exactly. -/
theorem claim_C9_witness :
    (∃ mo2,
        compute_merit_order scenarioFuels
            (scenarioMeritOrder.map Prod.snd) = some mo2 ∧
          mo2.map Prod.fst = scenarioMeritOrder.map Prod.fst ∧
          (mo2.map Prod.snd).Perm (scenarioMeritOrder.map Prod.snd)) ∧
    compute_merit_order scenarioFuels
        ([((1340 : ℚ)/53, gasfiredbig1), (508/3, tj1)].map Prod.snd) =
      some [((1340 : ℚ)/53, gasfiredbig1), (508/3, tj1)] :=
  ⟨claim_C9_amended.1 scenarioFuels scenarioPlants scenarioMeritOrder
      scenario_merit_order,
    claim_C9_amended.2 scenarioFuels [gasfiredbig1, tj1]
      [((1340 : ℚ)/53, gasfiredbig1), (508/3, tj1)]
      (by norm_num +decide [compute_merit_order, merit_insert_all,
        insert_merit, compute_cost, scenarioFuels, gasfiredbig1, tj1])
      (by norm_num)⟩

/-- Claim C10: `compute_cost` divides by the efficiency with no guard:
a gas-fired or turbojet plant with efficiency 0 makes the cost
computation raise (`none`), and therefore `compute_merit_order` and
`compute_UC` fail as well; for every plant with `0 < efficiency` the
division branch is safe and total (`isSome`). -/
theorem claim_C10 :
    (∀ (fuels : Fuels) (p : Powerplant),
        (p.type = .gasfired ∨ p.type = .turbojet) → p.efficiency = 0 →
        compute_cost fuels p = none) ∧
    (∀ (fuels : Fuels) (p : Powerplant), 0 < p.efficiency →
        (compute_cost fuels p).isSome) ∧
    (∀ (fuels : Fuels) (plants : List Powerplant) (p : Powerplant),
        p ∈ plants → (p.type = .gasfired ∨ p.type = .turbojet) →
        p.efficiency = 0 → compute_merit_order fuels plants = none) ∧
    (∀ (load : ℚ) (fuels : Fuels) (plants : List Powerplant)
        (p : Powerplant),
        p ∈ plants → (p.type = .gasfired ∨ p.type = .turbojet) →
        p.efficiency = 0 → compute_UC load fuels plants = none) := by
  have h1 : ∀ (fuels : Fuels) (p : Powerplant),
      (p.type = .gasfired ∨ p.type = .turbojet) → p.efficiency = 0 →
      compute_cost fuels p = none := by
    intro fuels p ht he
    rcases ht with ht | ht <;> simp [compute_cost, ht, he]
  have h3 : ∀ (fuels : Fuels) (plants : List Powerplant) (p : Powerplant),
      p ∈ plants → (p.type = .gasfired ∨ p.type = .turbojet) →
      p.efficiency = 0 → compute_merit_order fuels plants = none := by
    intro fuels plants p hmem ht he
    cases hmo : compute_merit_order fuels plants with
    | none => rfl
    | some mo =>
        have := compute_merit_order_cost_isSome fuels plants mo hmo p hmem
        rw [h1 fuels p ht he] at this
        simp at this
  refine ⟨h1, ?_, h3, ?_⟩
  · intro fuels p he
    unfold compute_cost
    cases hp : p.type <;> simp [ne_of_gt he]
  · intro load fuels plants p hmem ht he
    simp [compute_UC, h3 fuels plants p hmem ht he]

/-- Witness for claim C10: a zero-efficiency gas plant makes the cost
raise and the whole solve crash; the scenario's gas plant with
efficiency 0.53 has a defined cost. -/
theorem claim_C10_witness :
    compute_cost scenarioFuels ⟨"broken", .gasfired, 0, 10, 100⟩ = none ∧
    (compute_cost scenarioFuels gasfiredbig1).isSome ∧
    compute_merit_order scenarioFuels
      [⟨"broken", .gasfired, 0, 10, 100⟩] = none ∧
    compute_UC 50 scenarioFuels [⟨"broken", .gasfired, 0, 10, 100⟩] =
      none :=
  ⟨claim_C10.1 scenarioFuels ⟨"broken", .gasfired, 0, 10, 100⟩
      (Or.inl rfl) rfl,
    claim_C10.2.1 scenarioFuels gasfiredbig1 (by norm_num [gasfiredbig1]),
    claim_C10.2.2.1 scenarioFuels [⟨"broken", .gasfired, 0, 10, 100⟩]
      ⟨"broken", .gasfired, 0, 10, 100⟩ (List.mem_singleton.mpr rfl)
      (Or.inl rfl) rfl,
    claim_C10.2.2.2 50 scenarioFuels [⟨"broken", .gasfired, 0, 10, 100⟩]
      ⟨"broken", .gasfired, 0, 10, 100⟩ (List.mem_singleton.mpr rfl)
      (Or.inl rfl) rfl⟩

lemma scenario_compute_UC :
    compute_UC 480 scenarioFuels scenarioPlants =
      some (true, orderedScenarioPlants,
        ⟨[21.6, 90, 368.4, 0, 0, 0], 480⟩) := by
  norm_num +decide [compute_UC, compute_merit_order, merit_insert_all,
    insert_merit, compute_cost, build_solution, decrease_total_load,
    decrease_aux, get_p_min, get_p_max, List.replicate, List.set,
    scenarioFuels, scenarioPlants, orderedScenarioPlants, gasfiredbig1,
    gasfiredbig2, gasfiredsomewhatsmaller, tj1, windpark1, windpark2]

/-- Witness for claim C3 at the test scenario: the allocation sums to
the load 480. -/
theorem claim_C3_witness :
    (⟨[21.6, 90, 368.4, 0, 0, 0], 480⟩ : SolverState).solution.sum =
      480 :=
  claim_C3 480 scenarioFuels scenarioPlants orderedScenarioPlants
    ⟨[21.6, 90, 368.4, 0, 0, 0], 480⟩ scenario_compute_UC

lemma scenario_plants_ok : ∀ p ∈ scenarioPlants, PlantOK scenarioFuels p := by
  intro p hp
  simp only [scenarioPlants, List.mem_cons, List.not_mem_nil, or_false] at hp
  rcases hp with rfl | rfl | rfl | rfl | rfl | rfl <;>
    norm_num +decide [PlantOK, get_p_min, get_p_max, scenarioFuels,
      gasfiredbig1, gasfiredbig2, gasfiredsomewhatsmaller, tj1, windpark1,
      windpark2]

/-- Witness for claim C4 at the test scenario: the first merit-ordered
plant (windpark2) receives 21.6, which lies in its effective range. -/
theorem claim_C4_witness :
    (21.6 : ℚ) = 0 ∨ (get_p_min scenarioFuels windpark2 ≤ 21.6 ∧
      (21.6 : ℚ) ≤ get_p_max scenarioFuels windpark2) :=
  claim_C4 480 scenarioFuels scenarioPlants orderedScenarioPlants
    ⟨[21.6, 90, 368.4, 0, 0, 0], 480⟩ scenario_plants_ok scenario_compute_UC
    0 windpark2 21.6 (by norm_num [orderedScenarioPlants]) (by norm_num)
